import Mathlib

/-!
# Verification of the Basemap_PPL resumable ingestion pipeline

Shallow embedding of the resumable batch-ingestion pipeline implemented by
`basemap_generator.py`, `basemap_generator_original.py` and `usgs_test.py`:
the progress store (`ProcessTracker`), the downloader (`download_tif` /
`download_with_progress`), the per-item transform chain (`process_tifs`) and
the download semaphore of `usgs_test.py`.  External effects (HTTP responses,
subprocess exit codes) are supplied by explicit oracles; the file system is
an explicit state threaded through the operations.
-/

namespace Basemap

/-! ## ProgressStore: `ProcessTracker.load_progress` / `save_progress`

The progress file holds a JSON list of completed URLs.  Reading the file can
find it missing, unreadable (an I/O error while opening or reading), or
holding data (either a well-formed JSON list of strings or malformed bytes).
-/

/-- The parseable content of the progress file: a well-formed JSON list of
URL strings, or malformed bytes that make `json.load` raise. -/
inductive FileData
  | valid (urls : List String)
  | malformed
deriving DecidableEq

/-- What reading the progress file can yield at the OS level. -/
inductive ReadResult
  | missing
  | unreadable
  | content (d : FileData)
deriving DecidableEq

/-- Exceptions that can escape the load path in the Python sources. -/
inductive LoadErr
  | ioError
  | jsonError
deriving DecidableEq

/-- `ProcessTracker.load_progress` of `basemap_generator.py` (lines 30-34):
if the file exists it runs `set(json.load(f))` with no exception handler, so
malformed JSON raises `json.JSONDecodeError` and an unreadable file raises an
I/O error; only a missing file yields the empty set. -/
def load_progress : ReadResult → Except LoadErr (Finset String)
  | .missing => .ok ∅
  | .unreadable => .error .ioError
  | .content (.valid urls) => .ok urls.toFinset
  | .content .malformed => .error .jsonError

/-- `ProcessTracker.load_progress` of `basemap_generator_original.py`
(lines 190-198): `json.JSONDecodeError` is caught and yields the empty set;
a missing file yields the empty set; an I/O error is not caught. -/
def load_progress_orig : ReadResult → Except LoadErr (Finset String)
  | .missing => .ok ∅
  | .unreadable => .error .ioError
  | .content (.valid urls) => .ok urls.toFinset
  | .content .malformed => .ok ∅

/-- `ProcessTracker.save_progress` serializes the in-memory set as
`json.dump(list(self.completed_urls), f)`: a JSON list of the set's
elements, enumerated in some order (here a fixed sorted order; Python's
set-iteration order is unspecified, and the load path is insensitive to
it). -/
def save_progress_data (s : Finset String) : FileData :=
  .valid (s.sort (· ≤ ·))

/-! ## File-system trace model for the persistence path (C1)

`save_progress` is modelled as the sequence of atomic file-system operations
the Python code performs: truncating-open (`open(path, 'w')`), incremental
appends of the serialized chunks (`json.dump` streams), and `os.replace`.
A crash at step `k` corresponds to executing only the first `k` operations.
-/

/-- File-system state for the persistence path: the contents (as a list of
serialized chunks) of the progress file and of the `.tmp` sibling, `none`
when the file does not exist. -/
structure PFs where
  progress : Option (List Nat)
  tmp : Option (List Nat)
deriving DecidableEq

/-- One atomic file-system operation in the persistence path. -/
inductive PFsOp
  | truncProgress
  | truncTmp
  | appendProgress (c : Nat)
  | appendTmp (c : Nat)
  | replaceTmpProgress
deriving DecidableEq

/-- Effect of one operation on the file-system state. -/
def applyOp : PFs → PFsOp → PFs
  | fs, .truncProgress => { fs with progress := some [] }
  | fs, .truncTmp => { fs with tmp := some [] }
  | fs, .appendProgress c => { fs with progress := some ((fs.progress.getD []) ++ [c]) }
  | fs, .appendTmp c => { fs with tmp := some ((fs.tmp.getD []) ++ [c]) }
  | fs, .replaceTmpProgress => { progress := fs.tmp, tmp := none }

/-- Run a list of file-system operations in order. -/
def execOps : List PFsOp → PFs → PFs
  | [], fs => fs
  | op :: ops, fs => execOps ops (applyOp fs op)

/-- Run only the first `k` operations: the state left by a crash after
step `k`. -/
def execPrefix (ops : List PFsOp) (k : Nat) (fs : PFs) : PFs :=
  execOps (ops.take k) fs

/-- `ProcessTracker.save_progress` of `basemap_generator.py` (lines 36-38):
`open(self.progress_file, 'w')` truncates the progress file in place, then
`json.dump` writes the serialized data into it. -/
def save_progress_ops (data : List Nat) : List PFsOp :=
  .truncProgress :: data.map PFsOp.appendProgress

/-- `ProcessTracker.save_progress` of `basemap_generator_original.py`
(lines 200-204): write the serialized data to `progress_file + '.tmp'`, then
`os.replace(temp_file, self.progress_file)`. -/
def save_progress_orig_ops (data : List Nat) : List PFsOp :=
  .truncTmp :: (data.map PFsOp.appendTmp ++ [.replaceTmpProgress])

/-- The atomic-persistence property claimed for a save script: a crash after
any number of steps leaves the progress file holding either its prior
content or the fully-updated serialized set. -/
def AtomicPersist (ops : List PFsOp) (fs0 : PFs) (newData : List Nat) : Prop :=
  ∀ k, (execPrefix ops k fs0).progress = fs0.progress ∨
    (execPrefix ops k fs0).progress = some newData

/-! ## Downloader: `download_tif` and `download_with_progress`

One download attempt either raises a request exception before the
destination file is opened (`reqError`), raises mid-stream after some chunks
were written (`streamError`), or receives the whole body (`success`, possibly
empty).  The HTTP behaviour of the successive attempts is an explicit list;
the destination file is an `Option (List Nat)` of written chunks. -/

/-- Externally determined outcome of one attempt of
`download_tif` (`basemap_generator.py`, lines 56-94). -/
inductive Attempt
  | reqError
  | streamError (written : List Nat)
  | success (chunks : List Nat)
deriving DecidableEq

/-- Result of a downloader call: the returned truthiness, the final state of
the destination path, the sleeps performed (1-based attempt number paired
with seconds slept), and the number of attempts executed. -/
structure DlResult where
  ok : Bool
  dest : Option (List Nat)
  sleeps : List (Nat × Nat)
  attempts : Nat
deriving DecidableEq

/-- The retry loop of `download_tif` (`basemap_generator.py`, lines 58-94),
starting at 1-based attempt number `k` with the remaining attempt outcomes:

* request exception before the file is opened: the destination is left as it
  was; if attempts remain, sleep `(attempt + 1) * 5` seconds and retry, else
  return `False`;
* request exception mid-stream: `open(output_path, 'wb')` truncated the file
  and the chunks received so far were written; the partial file is NOT
  removed; same retry/sleep policy;
* full body received: if the file is non-empty, return `True`; if it is
  empty, remove it and retry immediately (the `continue` on line 84 skips
  the sleep); falling off the end of the loop returns `None` (falsy). -/
def dlGo (step : Nat) : Nat → List Attempt → Option (List Nat) → DlResult
  | _, [], dest => ⟨false, dest, [], 0⟩
  | k, .reqError :: rest, dest =>
    if rest.isEmpty then ⟨false, dest, [], 1⟩
    else
      let r := dlGo step (k + 1) rest dest
      ⟨r.ok, r.dest, (k, k * step) :: r.sleeps, r.attempts + 1⟩
  | k, .streamError w :: rest, _ =>
    if rest.isEmpty then ⟨false, some w, [], 1⟩
    else
      let r := dlGo step (k + 1) rest (some w)
      ⟨r.ok, r.dest, (k, k * step) :: r.sleeps, r.attempts + 1⟩
  | k, .success cs :: rest, _ =>
    if cs.isEmpty then
      let r := dlGo step (k + 1) rest none
      ⟨r.ok, r.dest, r.sleeps, r.attempts + 1⟩
    else ⟨true, some cs, [], 1⟩

/-- `download_tif(url, output_path, max_retries)`: the attempt budget is the
length of the outcome list, the backoff step is 5 seconds
(`wait_time = (attempt + 1) * 5`, line 89). -/
def download_tif (outcomes : List Attempt) (dest0 : Option (List Nat)) : DlResult :=
  dlGo 5 1 outcomes dest0

/-- Externally determined outcome of one attempt of
`download_with_progress` (`basemap_generator_original.py`): a request
exception, a stall (`DownloadTimeout`), or a fully received body.  In both
failure cases `download_with_timeout` removes the destination file before
re-raising (lines 116-120). -/
inductive AttemptO
  | reqError (written : List Nat)
  | stall (written : List Nat)
  | success (chunks : List Nat)
deriving DecidableEq

/-- The retry loop of `download_with_progress`
(`basemap_generator_original.py`, lines 138-169): every failure path removes
the destination file (already removed inside `download_with_timeout`, and
again, harmlessly, in the handler), then sleeps `(attempt + 1) * 15` seconds
unless this was the last attempt, in which case `False` is returned. -/
def dlGoOrig : Nat → List AttemptO → Option (List Nat) → DlResult
  | _, [], dest => ⟨false, dest, [], 0⟩
  | _, .success cs :: _, _ => ⟨true, some cs, [], 1⟩
  | k, .reqError _ :: rest, _ =>
    if rest.isEmpty then ⟨false, none, [], 1⟩
    else
      let r := dlGoOrig (k + 1) rest none
      ⟨r.ok, r.dest, (k, k * 15) :: r.sleeps, r.attempts + 1⟩
  | k, .stall _ :: rest, _ =>
    if rest.isEmpty then ⟨false, none, [], 1⟩
    else
      let r := dlGoOrig (k + 1) rest none
      ⟨r.ok, r.dest, (k, k * 15) :: r.sleeps, r.attempts + 1⟩

/-- `download_with_progress(url, filename, max_retries, timeout)`. -/
def download_with_progress (outcomes : List AttemptO) (dest0 : Option (List Nat)) :
    DlResult :=
  dlGoOrig 1 outcomes dest0

/-- Whether the code treats an attempt outcome as a failed attempt
(`download_tif` logs and retries on a request exception and on an empty
downloaded file). -/
def Attempt.isFailure : Attempt → Bool
  | .reqError => true
  | .streamError _ => true
  | .success cs => cs.isEmpty

/-! ## Orchestrator: `process_tifs` (`basemap_generator.py`, lines 166-336)

The per-item loop is embedded with the external world (download result and
exit status of each invoked tool) supplied by a per-URL oracle.  Observable
behaviour is recorded as an event list (downloads, stage invocations with
their exit status, completion marks), a file-system set of staging/output
files, and the list of files removed. -/

/-- The external tool invocations of one item's chain, in program order:
`gdalinfo -stats` (band analysis), `gdal_translate` (color fix),
`gdalwarp` (resample), `gdal_translate -of MBTILES`, `gdaladdo` (overviews),
`gdalinfo` (verify), `sqlite3` (metadata fix). -/
inductive StageName
  | stats
  | colorFix
  | resample
  | mbtilesT
  | addo
  | verify
  | sqliteFix
deriving DecidableEq

/-- External outcomes for one URL: whether `download_tif` succeeds, whether
a failed download leaves a partial `input_{i}.tif` behind, and the exit
status (`true` = zero) of each external stage. -/
structure ItemOracle where
  downloadOk : Bool
  downloadPartial : Bool
  statsOk : Bool
  colorFixOk : Bool
  resampleOk : Bool
  mbtilesOk : Bool
  addoOk : Bool
  verifyOk : Bool
  sqliteOk : Bool
deriving DecidableEq

/-- Observable events of a run. -/
inductive Ev
  | download (url : String)
  | stage (url : String) (s : StageName) (ok : Bool)
  | marked (url : String)
deriving DecidableEq

/-- The URL an event concerns. -/
def Ev.url : Ev → String
  | .download u => u
  | .stage u _ _ => u
  | .marked u => u

/-- Files of the staging directory, indexed by the item's 1-based position:
`input_{i}.tif`, `corrected_{i}.tif`, `resampled_{i}.tif` and the final
output artifact `naip_tile_{i}.mbtiles`. -/
inductive PFile
  | input (i : Nat)
  | corrected (i : Nat)
  | resampled (i : Nat)
  | mbtiles (i : Nat)
deriving DecidableEq

/-- The index of a staging/output file. -/
def PFile.idx : PFile → Nat
  | .input i => i
  | .corrected i => i
  | .resampled i => i
  | .mbtiles i => i

/-- Whether a file is the final output artifact. -/
def PFile.isOutput : PFile → Bool
  | .mbtiles _ => true
  | _ => false

/-- Terminal state of one item in a run. -/
inductive Outcome
  | skipped
  | failedDownload
  | failedResample
  | failedMbtiles
  | completed
deriving DecidableEq

/-- State and observations produced by one iteration of the item loop. -/
structure ItemStep where
  completed : Finset String
  fs : Finset PFile
  events : List Ev
  removals : List PFile
  outcome : Outcome

/-- One iteration of the loop body of `process_tifs` for item `i` (1-based)
with URL `url`, given the tracker set `completed` and file system `fs`:

* already-completed URLs are skipped with no work (lines 171-173);
* a failed `download_tif` logs and `continue`s (lines 181-183) — it may
  leave a partial `input_{i}.tif` (see the downloader model);
* the band-statistics step and the color-fix `gdal_translate` run next; the
  color-fix exit status is NOT inspected (line 244), so the chain continues
  regardless;
* a non-zero `gdalwarp` exit aborts the item (lines 270-272), as does a
  non-zero MBTiles `gdal_translate` exit (lines 292-294);
* a non-zero `gdaladdo` exit is only a warning (lines 308-309); `gdalinfo`
  verification and the `sqlite3` metadata fix are run unchecked;
* on success the three staging files are removed if present (lines 324-329)
  and the URL is marked completed (line 332). -/
def processItem (i : Nat) (url : String) (o : ItemOracle)
    (completed : Finset String) (fs : Finset PFile) : ItemStep :=
  if url ∈ completed then
    ⟨completed, fs, [], [], .skipped⟩
  else if o.downloadOk = false then
    ⟨completed, (if o.downloadPartial then insert (PFile.input i) fs else fs),
      [.download url], [], .failedDownload⟩
  else
    let fs1 := insert (PFile.input i) fs
    let fs2 := if o.colorFixOk then insert (PFile.corrected i) fs1 else fs1
    if o.resampleOk = false then
      ⟨completed, fs2,
        [.download url, .stage url .stats o.statsOk, .stage url .colorFix o.colorFixOk,
          .stage url .resample false],
        [], .failedResample⟩
    else
      let fs3 := insert (PFile.resampled i) fs2
      if o.mbtilesOk = false then
        ⟨completed, fs3,
          [.download url, .stage url .stats o.statsOk, .stage url .colorFix o.colorFixOk,
            .stage url .resample true, .stage url .mbtilesT false],
          [], .failedMbtiles⟩
      else
        let fs4 := insert (PFile.mbtiles i) fs3
        let removals := [PFile.input i, PFile.corrected i, PFile.resampled i].filter
          (fun f => f ∈ fs4)
        let fs5 := ((fs4.erase (PFile.input i)).erase (PFile.corrected i)).erase
          (PFile.resampled i)
        ⟨insert url completed, fs5,
          [.download url, .stage url .stats o.statsOk, .stage url .colorFix o.colorFixOk,
            .stage url .resample true, .stage url .mbtilesT true, .stage url .addo o.addoOk,
            .stage url .verify o.verifyOk, .stage url .sqliteFix o.sqliteOk, .marked url],
          removals, .completed⟩

/-- Aggregate result of a `process_tifs` run. -/
structure RunResult where
  completed : Finset String
  fs : Finset PFile
  events : List Ev
  removals : List PFile
  outcomes : List Outcome

/-- The item loop of `process_tifs`, enumerating the URLs from 1-based
index `i` with tracker set `c` and file system `fs`. -/
def processTifsGo (oracle : String → ItemOracle) :
    List String → Nat → Finset String → Finset PFile → RunResult
  | [], _, c, fs => ⟨c, fs, [], [], []⟩
  | url :: rest, i, c, fs =>
    let step := processItem i url (oracle url) c fs
    let r := processTifsGo oracle rest (i + 1) step.completed step.fs
    ⟨r.completed, r.fs, step.events ++ r.events, step.removals ++ r.removals,
      step.outcome :: r.outcomes⟩

/-- `process_tifs(tif_urls, output_dir)`: the tracker starts from the loaded
completed set `c0`; enumeration is 1-based (`enumerate(tif_urls, 1)`). -/
def process_tifs (urls : List String) (oracle : String → ItemOracle)
    (c0 : Finset String) : RunResult :=
  processTifsGo oracle urls 1 c0 ∅

/-- An oracle outcome under which the item's chain reaches the completion
mark: the download and both exit-checked stages succeed. -/
def ItemOracle.succeeds (o : ItemOracle) : Bool :=
  o.downloadOk && o.resampleOk && o.mbtilesOk

/-! ## ConcurrencyGate: the download semaphore of `usgs_test.py`

`sema = threading.Semaphore(value=maxthreads)` with `maxthreads = 5`
(lines 13-14); every `downloadFile` thread calls `sema.acquire()` before
issuing its HTTP request and transferring bytes, and `sema.release()` on
every exit path (lines 131-179).  The interleaving of the threads is
modelled as a transition system: a thread is `idle` before `acquire`,
`active` while it holds a slot and transfers, and `done` after `release`. -/

/-- `maxthreads = 5` (`usgs_test.py`, line 13). -/
def maxthreads : Nat := 5

/-- Phase of one downloader thread. -/
inductive TPhase
  | idle
  | active
  | done
deriving DecidableEq

/-- Global state of the gate: free slots of the semaphore and the phase of
each spawned thread. -/
structure GateSt where
  avail : Nat
  threads : List TPhase
deriving DecidableEq

/-- Initial state: a semaphore with `n` free slots and `m` spawned threads,
none of which has acquired yet. -/
def initGate (n m : Nat) : GateSt :=
  ⟨n, List.replicate m .idle⟩

/-- One scheduler step: `sema.acquire()` blocks until a slot is free, so an
idle thread may become active only when `avail` is positive, consuming a
slot; an active thread may finish, releasing its slot. -/
inductive GateStep : GateSt → GateSt → Prop
  | acquire (s : GateSt) (i : Nat) (h : s.threads.get? i = some .idle)
      (ha : s.avail ≠ 0) :
      GateStep s ⟨s.avail - 1, s.threads.set i .active⟩
  | release (s : GateSt) (i : Nat) (h : s.threads.get? i = some .active) :
      GateStep s ⟨s.avail + 1, s.threads.set i .done⟩

/-- States reachable from the initial state by any interleaving. -/
inductive GateReach (n m : Nat) : GateSt → Prop
  | init : GateReach n m (initGate n m)
  | step {s t : GateSt} : GateReach n m s → GateStep s t → GateReach n m t

/-- Number of downloads concurrently transferring bytes. -/
def activeCount (s : GateSt) : Nat :=
  s.threads.count .active

/-! ## Concrete oracles used for counterexamples and witnesses -/

/-- Every download and every stage succeeds. -/
def oracleAllOk : String → ItemOracle :=
  fun _ => ⟨true, false, true, true, true, true, true, true, true⟩

/-- The color-fix `gdal_translate` exits non-zero; everything else
succeeds. -/
def oracleColorFixFails : String → ItemOracle :=
  fun _ => ⟨true, false, true, false, true, true, true, true, true⟩

/-- The `gdalwarp` resample exits non-zero; everything else succeeds. -/
def oracleResampleFails : String → ItemOracle :=
  fun _ => ⟨true, false, true, true, false, true, true, true, true⟩

/-- The download fails (leaving no partial file); everything else
succeeds. -/
def oracleDownloadFails : String → ItemOracle :=
  fun _ => ⟨false, false, true, true, true, true, true, true, true⟩

end Basemap

namespace Basemap

/-! # Theorems -/

/-! ## C10: save/load round trip of the progress set -/

/-- C10: for every finite set of URL strings, serializing the completed set
as a JSON list (`save_progress`) and deserializing it (`load_progress`)
yields exactly the original set; deserialization depends only on membership,
discarding element order and duplicates. -/
theorem c10_save_load_roundtrip (s : Finset String) (l : List String) :
    load_progress (.content (save_progress_data s)) = .ok s ∧
    load_progress (.content (.valid l)) = .ok l.toFinset ∧
    load_progress (.content (.valid l.reverse)) = load_progress (.content (.valid l)) ∧
    load_progress (.content (.valid (l ++ l))) = load_progress (.content (.valid l)) := by
  refine ⟨?_, rfl, ?_, ?_⟩
  · simp [load_progress, save_progress_data, Finset.sort_toFinset]
  · simp [load_progress, List.toFinset_reverse]
  · simp [load_progress, List.toFinset_append]

/-! ## C5: behaviour of `load_progress` on startup -/

/-- C5 counterexample: in `basemap_generator.py`, `load_progress` on a
progress file holding malformed JSON raises `json.JSONDecodeError` (there is
no handler around `json.load`), instead of returning the empty completed
set. -/
theorem c5_counterexample :
    load_progress (.content .malformed) = .error .jsonError ∧
    load_progress (.content .malformed) ≠ .ok (∅ : Finset String) := by
  refine ⟨rfl, ?_⟩
  intro h
  simp [load_progress] at h

/-- C5 amended: a missing progress file yields the empty completed set and a
well-formed persisted set is returned exactly, in both variants; malformed
persisted data yields the empty set only in `basemap_generator_original.py`
(`basemap_generator.py` raises), and an unreadable file raises in both
variants. -/
theorem c5_amended (urls : List String) :
    load_progress .missing = .ok ∅ ∧
    load_progress (.content (.valid urls)) = .ok urls.toFinset ∧
    load_progress .unreadable = .error .ioError ∧
    load_progress_orig .missing = .ok ∅ ∧
    load_progress_orig (.content (.valid urls)) = .ok urls.toFinset ∧
    load_progress_orig (.content .malformed) = .ok ∅ ∧
    load_progress_orig .unreadable = .error .ioError :=
  ⟨rfl, rfl, rfl, rfl, rfl, rfl, rfl⟩

/-! ## C1: atomicity of `save_progress` -/

/-- Executing any prefix of the append-then-replace tail of the original
`save_progress` script leaves the progress file either untouched or holding
the full serialized data accumulated in the temporary file. -/
theorem execOps_tmpTail_progress (l : List Nat) (j : Nat) (fs : PFs) (t : List Nat)
    (ht : fs.tmp = some t) :
    (execOps ((l.map PFsOp.appendTmp ++ [PFsOp.replaceTmpProgress]).take j) fs).progress
        = fs.progress ∨
    (execOps ((l.map PFsOp.appendTmp ++ [PFsOp.replaceTmpProgress]).take j) fs).progress
        = some (t ++ l) := by
  induction l generalizing j fs t with
  | nil =>
    cases j with
    | zero => left; rfl
    | succ j' =>
      right
      simp [execOps, applyOp, List.take_succ_cons, ht]
  | cons c l' ih =>
    cases j with
    | zero => left; rfl
    | succ j' =>
      have ht' : (applyOp fs (.appendTmp c)).tmp = some (t ++ [c]) := by
        simp [applyOp, ht]
      have e : execOps (((c :: l').map PFsOp.appendTmp ++ [PFsOp.replaceTmpProgress]).take
            (j' + 1)) fs
          = execOps ((l'.map PFsOp.appendTmp ++ [PFsOp.replaceTmpProgress]).take j')
            (applyOp fs (.appendTmp c)) := rfl
      rw [e]
      rcases ih j' (applyOp fs (.appendTmp c)) (t ++ [c]) ht' with h | h
      · left
        rw [h]
        simp [applyOp]
      · right
        rw [h]
        simp


/-- C1 amended: in `basemap_generator_original.py`, `mark_completed`'s
persistence is atomic — the serialized set is written to the `.tmp` file and
swapped into place by `os.replace`, so a crash after any number of steps
leaves the progress file holding either its prior content or the
fully-updated record.  (`basemap_generator.py` lacks this; see the
counterexample.) -/
theorem c1_amended (data : List Nat) (fs0 : PFs) :
    AtomicPersist (save_progress_orig_ops data) fs0 data := by
  intro k
  cases k with
  | zero => left; rfl
  | succ k' =>
    have ht : (applyOp fs0 .truncTmp).tmp = some [] := by simp [applyOp]
    have h := execOps_tmpTail_progress data k' (applyOp fs0 .truncTmp) [] ht
    have hp : (applyOp fs0 .truncTmp).progress = fs0.progress := by simp [applyOp]
    rcases h with h | h
    · left
      simpa [execPrefix, save_progress_orig_ops, List.take_succ_cons, execOps, hp] using h
    · right
      simpa [execPrefix, save_progress_orig_ops, List.take_succ_cons, execOps] using h

/-- C1 counterexample: in `basemap_generator.py`, `save_progress` opens the
progress file itself with `open(path, 'w')`, truncating it in place; a crash
immediately after the truncating open (prefix of length 1) leaves an empty
progress file that is neither the prior record `[7]` nor the new record
`[1, 2]`. -/
theorem c1_counterexample :
    (execPrefix (save_progress_ops [1, 2]) 1 ⟨some [7], none⟩).progress = some [] ∧
    some ([] : List Nat) ≠ some [7] ∧ some ([] : List Nat) ≠ some [1, 2] ∧
    ¬ AtomicPersist (save_progress_ops [1, 2]) ⟨some [7], none⟩ [1, 2] := by
  refine ⟨rfl, by decide, by decide, ?_⟩
  intro h
  rcases h 1 with h1 | h1 <;>
    simp [execPrefix, execOps, applyOp, save_progress_ops] at h1

/-! ## C9: the download semaphore bounds concurrency -/

/-- Replacing the element at position `i` changes the count of any value by
the difference between the new and the old element. -/
theorem count_set_balance (l : List TPhase) (i : Nat) (a b c : TPhase)
    (h : l.get? i = some a) :
    (l.set i b).count c + (if a = c then 1 else 0) =
      l.count c + (if b = c then 1 else 0) := by
  induction l generalizing i with
  | nil => simp at h
  | cons hd tl ih =>
    cases i with
    | zero =>
      simp only [List.get?] at h
      injection h with h
      subst h
      simp only [List.set, List.count_cons, beq_iff_eq]
      omega
    | succ i' =>
      simp only [List.get?] at h
      have := ih i' h
      simp only [List.set, List.count_cons, beq_iff_eq]
      omega

/-- Semaphore invariant: in every reachable state, the free slots plus the
threads currently downloading equal the gate capacity. -/
theorem gate_invariant {n m : Nat} {s : GateSt} (h : GateReach n m s) :
    s.avail + activeCount s = n := by
  induction h with
  | init =>
    simp [initGate, activeCount, List.count_replicate]
  | @step s t _ hs ih =>
    cases hs with
    | acquire i hget ha =>
      have hb := count_set_balance s.threads i .idle .active .active hget
      simp only [activeCount] at *
      simp at hb
      omega
    | release i hget =>
      have hb := count_set_balance s.threads i .active .done .active hget
      simp only [activeCount] at *
      simp at hb
      omega

/-- C9: with the semaphore initialized to capacity `n` (code default
`maxthreads = 5`) and `m` download threads spawned, in every reachable
interleaving state at most `n` downloads are concurrently active — each
`downloadFile` thread acquires a slot before transferring bytes and releases
it when done. -/
theorem c9_bounded_concurrency (n m : Nat) (s : GateSt) (h : GateReach n m s) :
    activeCount s ≤ n := by
  have := gate_invariant h
  omega

/-- C9 witness: the bound instantiated at the code's capacity
`maxthreads = 5` with 7 spawned threads, at the initial state. -/
theorem c9_bounded_concurrency_witness :
    activeCount (initGate maxthreads 7) ≤ maxthreads :=
  c9_bounded_concurrency maxthreads 7 _ GateReach.init

/-! ## C3: partial files after failed downloads -/

/-- In `download_with_progress` (original script), every failure path has
removed the destination file, so a call that returns failure leaves no
destination file. -/
theorem dlGoOrig_fail_dest (outcomes : List AttemptO) (k : Nat)
    (dest0 : Option (List Nat)) (hne : outcomes ≠ [])
    (hok : (dlGoOrig k outcomes dest0).ok = false) :
    (dlGoOrig k outcomes dest0).dest = none := by
  induction outcomes generalizing k dest0 with
  | nil => exact absurd rfl hne
  | cons o rest ih =>
    cases o with
    | success cs => simp [dlGoOrig] at hok
    | reqError w =>
      cases rest with
      | nil => simp [dlGoOrig]
      | cons o' rest' =>
        simp only [dlGoOrig, List.isEmpty_cons, if_neg] at hok ⊢
        simp only [Bool.false_eq_true, if_false]
        exact ih (k + 1) none (by simp) (by simpa using hok)
    | stall w =>
      cases rest with
      | nil => simp [dlGoOrig]
      | cons o' rest' =>
        simp only [dlGoOrig, List.isEmpty_cons, if_neg] at hok ⊢
        simp only [Bool.false_eq_true, if_false]
        exact ih (k + 1) none (by simp) (by simpa using hok)

/-- In `download_tif`, a call that returns `True` leaves exactly the bytes
received by one non-empty successful attempt in the destination file: every
attempt reopens the file with the truncating mode `'wb'`, so no result is
ever a resumed concatenation of a truncated earlier attempt. -/
theorem dlGo_ok_dest (step : Nat) (outcomes : List Attempt) (k : Nat)
    (dest0 : Option (List Nat)) (hok : (dlGo step k outcomes dest0).ok = true) :
    ∃ i cs, outcomes.get? i = some (.success cs) ∧ cs ≠ [] ∧
      (dlGo step k outcomes dest0).dest = some cs := by
  induction outcomes generalizing k dest0 with
  | nil => simp [dlGo] at hok
  | cons o rest ih =>
    cases o with
    | reqError =>
      cases rest with
      | nil => simp [dlGo] at hok
      | cons o' rest' =>
        simp only [dlGo, List.isEmpty_cons, Bool.false_eq_true, if_false] at hok ⊢
        obtain ⟨i, cs, hget, hne, hdest⟩ := ih (k + 1) dest0 hok
        exact ⟨i + 1, cs, hget, hne, hdest⟩
    | streamError w =>
      cases rest with
      | nil => simp [dlGo] at hok
      | cons o' rest' =>
        simp only [dlGo, List.isEmpty_cons, Bool.false_eq_true, if_false] at hok ⊢
        obtain ⟨i, cs, hget, hne, hdest⟩ := ih (k + 1) (some w) hok
        exact ⟨i + 1, cs, hget, hne, hdest⟩
    | success cs =>
      by_cases hcs : cs.isEmpty
      · simp only [dlGo, hcs, if_true] at hok ⊢
        obtain ⟨i, cs', hget, hne, hdest⟩ := ih (k + 1) none hok
        exact ⟨i + 1, cs', hget, hne, hdest⟩
      · refine ⟨0, cs, rfl, by simpa [List.isEmpty_iff] using hcs, ?_⟩
        simp [dlGo, hcs]

/-- C3 counterexample: in `basemap_generator.py`, a download attempt that
fails with a request exception after writing a chunk (the `except` branch on
line 86 has no file removal) returns failure while the partial destination
file still exists. -/
theorem c3_counterexample :
    (download_tif [.streamError [7]] none).ok = false ∧
    (download_tif [.streamError [7]] none).dest = some [7] ∧
    (download_tif [.streamError [7]] none).dest ≠ none := by
  decide

/-- C3 amended: in `basemap_generator_original.py` every failed fetch leaves
no destination file (each failure path deletes the partial file before
retrying or returning); in `basemap_generator.py` a request-error failure
can leave the partial file behind (see the counterexample), but every retry
reopens the destination in truncating mode, so a successful call leaves
exactly the bytes of one non-empty successful attempt — never a resumption
of a truncated file. -/
theorem c3_amended (outcomesO : List AttemptO) (outcomes : List Attempt)
    (dest0 destN : Option (List Nat)) (hne : outcomesO ≠ []) :
    ((download_with_progress outcomesO dest0).ok = false →
      (download_with_progress outcomesO dest0).dest = none) ∧
    ((download_tif outcomes destN).ok = true →
      ∃ i cs, outcomes.get? i = some (.success cs) ∧ cs ≠ [] ∧
        (download_tif outcomes destN).dest = some cs) :=
  ⟨fun hok => dlGoOrig_fail_dest outcomesO 1 dest0 hne hok,
    fun hok => dlGo_ok_dest 5 outcomes 1 destN hok⟩

/-- C3 witness: a concrete instantiation — a stalled first attempt followed
by exhaustion leaves no file in the original downloader, and a clean
successful call of `download_tif` leaves the received bytes. -/
theorem c3_amended_witness :
    (download_with_progress [.stall [3], .reqError [4]] none).dest = none ∧
    ∃ i cs, ([Attempt.success [1, 2]].get? i) = some (.success cs) ∧ cs ≠ [] ∧
      (download_tif [.success [1, 2]] none).dest = some cs :=
  ⟨(c3_amended [.stall [3], .reqError [4]] [.success [1, 2]] none none
      (by decide)).1 (by decide),
    (c3_amended [.stall [3], .reqError [4]] [.success [1, 2]] none none
      (by decide)).2 (by decide)⟩

/-! ## C7: retry backoff of the downloader -/

/-- Every sleep performed by the retry loop of `download_tif` starting at
attempt `k` is tagged with an attempt number at least `k` and lasts exactly
that attempt number times the backoff step. -/
theorem dlGo_sleeps_linear (step : Nat) (outcomes : List Attempt) (k : Nat)
    (d : Option (List Nat)) :
    ∀ p ∈ (dlGo step k outcomes d).sleeps, k ≤ p.1 ∧ p.2 = p.1 * step := by
  induction outcomes generalizing k d with
  | nil => simp [dlGo]
  | cons o rest ih =>
    cases o with
    | reqError =>
      cases rest with
      | nil => simp [dlGo]
      | cons o' rest' =>
        intro p hp
        simp only [dlGo, List.isEmpty_cons, Bool.false_eq_true, if_false,
          List.mem_cons] at hp
        rcases hp with rfl | hp
        · exact ⟨le_refl _, rfl⟩
        · have := ih (k + 1) d p hp
          omega
    | streamError w =>
      cases rest with
      | nil => simp [dlGo]
      | cons o' rest' =>
        intro p hp
        simp only [dlGo, List.isEmpty_cons, Bool.false_eq_true, if_false,
          List.mem_cons] at hp
        rcases hp with rfl | hp
        · exact ⟨le_refl _, rfl⟩
        · have := ih (k + 1) (some w) p hp
          omega
    | success cs =>
      by_cases hcs : cs.isEmpty
      · intro p hp
        simp only [dlGo, hcs, if_true] at hp
        have := ih (k + 1) none p hp
        omega
      · simp [dlGo, hcs]

/-- The sleeps of the retry loop of `download_tif` have strictly increasing
durations whenever the backoff step is positive. -/
theorem dlGo_sleeps_increasing (step : Nat) (hstep : 0 < step)
    (outcomes : List Attempt) (k : Nat) (d : Option (List Nat)) :
    List.Chain' (fun p q : Nat × Nat => p.2 < q.2)
      (dlGo step k outcomes d).sleeps := by
  induction outcomes generalizing k d with
  | nil => simp [dlGo]
  | cons o rest ih =>
    have hhead : ∀ (d' : Option (List Nat)) (b : Nat × Nat),
        (dlGo step (k + 1) rest d').sleeps.head? = some b → k * step < b.2 := by
      intro d' b hb
      have hmem : b ∈ (dlGo step (k + 1) rest d').sleeps :=
        List.mem_of_mem_head? hb
      have hlin := dlGo_sleeps_linear step rest (k + 1) d' b hmem
      have hk : k < b.1 := by omega
      calc k * step < b.1 * step := (Nat.mul_lt_mul_right hstep).mpr hk
        _ = b.2 := hlin.2.symm
    cases o with
    | reqError =>
      cases rest with
      | nil => simp [dlGo]
      | cons o' rest' =>
        simp only [dlGo, List.isEmpty_cons, Bool.false_eq_true, if_false]
        rw [List.chain'_cons']
        exact ⟨fun b hb => hhead d b hb, ih (k + 1) d⟩
    | streamError w =>
      cases rest with
      | nil => simp [dlGo]
      | cons o' rest' =>
        simp only [dlGo, List.isEmpty_cons, Bool.false_eq_true, if_false]
        rw [List.chain'_cons']
        exact ⟨fun b hb => hhead (some w) b hb, ih (k + 1) (some w)⟩
    | success cs =>
      by_cases hcs : cs.isEmpty
      · simp only [dlGo, hcs, if_true]
        exact ih (k + 1) none
      · simp [dlGo, hcs]

/-- The retry loop executes at most as many attempts as its budget. -/
theorem dlGo_attempts_le (step : Nat) (outcomes : List Attempt) (k : Nat)
    (d : Option (List Nat)) :
    (dlGo step k outcomes d).attempts ≤ outcomes.length := by
  induction outcomes generalizing k d with
  | nil => simp [dlGo]
  | cons o rest ih =>
    cases o with
    | reqError =>
      cases rest with
      | nil => simp [dlGo]
      | cons o' rest' =>
        simp only [dlGo, List.isEmpty_cons, Bool.false_eq_true, if_false,
          List.length_cons]
        have := ih (k + 1) d
        simp only [List.length_cons] at this
        omega
    | streamError w =>
      cases rest with
      | nil => simp [dlGo]
      | cons o' rest' =>
        simp only [dlGo, List.isEmpty_cons, Bool.false_eq_true, if_false,
          List.length_cons]
        have := ih (k + 1) (some w)
        simp only [List.length_cons] at this
        omega
    | success cs =>
      by_cases hcs : cs.isEmpty
      · simp only [dlGo, hcs, if_true, List.length_cons]
        have := ih (k + 1) none
        simp only [List.length_cons] at this
        omega
      · simp [dlGo, hcs]

/-- Exhausting the budget on failures returns failure (a value, not an
exception). -/
theorem dlGo_allfail_false (step : Nat) (outcomes : List Attempt) (k : Nat)
    (d : Option (List Nat)) (hf : ∀ o ∈ outcomes, o.isFailure = true) :
    (dlGo step k outcomes d).ok = false := by
  induction outcomes generalizing k d with
  | nil => simp [dlGo]
  | cons o rest ih =>
    cases o with
    | reqError =>
      cases rest with
      | nil => simp [dlGo]
      | cons o' rest' =>
        simp only [dlGo, List.isEmpty_cons, Bool.false_eq_true, if_false]
        exact ih (k + 1) d (fun x hx => hf x (List.mem_cons_of_mem _ hx))
    | streamError w =>
      cases rest with
      | nil => simp [dlGo]
      | cons o' rest' =>
        simp only [dlGo, List.isEmpty_cons, Bool.false_eq_true, if_false]
        exact ih (k + 1) (some w) (fun x hx => hf x (List.mem_cons_of_mem _ hx))
    | success cs =>
      have hcs : cs.isEmpty = true := by
        have := hf _ (List.mem_cons_self _ _)
        simpa [Attempt.isFailure] using this
      simp only [dlGo, hcs, if_true]
      exact ih (k + 1) none (fun x hx => hf x (List.mem_cons_of_mem _ hx))

/-- Every sleep of `download_with_progress` lasts its 1-based attempt number
times 15 seconds (`wait_time = (attempt + 1) * 15`). -/
theorem dlGoOrig_sleeps_linear (outcomes : List AttemptO) (k : Nat)
    (d : Option (List Nat)) :
    ∀ p ∈ (dlGoOrig k outcomes d).sleeps, k ≤ p.1 ∧ p.2 = p.1 * 15 := by
  induction outcomes generalizing k d with
  | nil => simp [dlGoOrig]
  | cons o rest ih =>
    cases o with
    | success cs => simp [dlGoOrig]
    | reqError w =>
      cases rest with
      | nil => simp [dlGoOrig]
      | cons o' rest' =>
        intro p hp
        simp only [dlGoOrig, List.isEmpty_cons, Bool.false_eq_true, if_false,
          List.mem_cons] at hp
        rcases hp with rfl | hp
        · exact ⟨le_refl _, rfl⟩
        · have := ih (k + 1) none p hp
          omega
    | stall w =>
      cases rest with
      | nil => simp [dlGoOrig]
      | cons o' rest' =>
        intro p hp
        simp only [dlGoOrig, List.isEmpty_cons, Bool.false_eq_true, if_false,
          List.mem_cons] at hp
        rcases hp with rfl | hp
        · exact ⟨le_refl _, rfl⟩
        · have := ih (k + 1) none p hp
          omega

/-- C7 counterexample: in `basemap_generator.py`, the empty-file failure of
attempt 1 retries via `continue` (line 84) without any sleep: the attempt is
a failed one (`download_tif` logs "Downloaded file is empty. Retrying...")
and is not the last, yet no delay of `1 * 5` seconds (nor any delay at all)
is performed before attempt 2. -/
theorem c7_counterexample :
    Attempt.isFailure (.success []) = true ∧
    (download_tif [.success [], .success [1, 2]] none).attempts = 2 ∧
    (download_tif [.success [], .success [1, 2]] none).sleeps = [] ∧
    (1, 1 * 5) ∉ (download_tif [.success [], .success [1, 2]] none).sleeps := by
  decide

/-- C7 amended: every delay the downloader actually sleeps equals its
1-based attempt number times the fixed step (5 s in `download_tif`, 15 s in
`download_with_progress`) — request-exception failures that are not the last
attempt sleep exactly this long, while an empty-file failure retries with no
delay; the slept delays strictly increase within a call (linear backoff);
at most `maxRetries` attempts are performed; and exhausting the budget on
failures returns failure rather than raising. -/
theorem c7_amended (outcomes : List Attempt) (outcomesO : List AttemptO)
    (d dO : Option (List Nat)) :
    (∀ p ∈ (download_tif outcomes d).sleeps, p.2 = p.1 * 5) ∧
    List.Chain' (fun p q : Nat × Nat => p.2 < q.2) (download_tif outcomes d).sleeps ∧
    (download_tif outcomes d).attempts ≤ outcomes.length ∧
    ((∀ o ∈ outcomes, o.isFailure = true) → (download_tif outcomes d).ok = false) ∧
    (∀ p ∈ (download_with_progress outcomesO dO).sleeps, p.2 = p.1 * 15) :=
  ⟨fun p hp => (dlGo_sleeps_linear 5 outcomes 1 d p hp).2,
    dlGo_sleeps_increasing 5 (by decide) outcomes 1 d,
    dlGo_attempts_le 5 outcomes 1 d,
    dlGo_allfail_false 5 outcomes 1 d,
    fun p hp => (dlGoOrig_sleeps_linear outcomesO 1 dO p hp).2⟩

/-- C7 witness: two request failures then success sleep 5 s then 10 s; a
budget of two failures returns failure. -/
theorem c7_amended_witness :
    ((1, 5) ∈ (download_tif [.reqError, .reqError, .success [1]] none).sleeps →
      (5 : Nat) = 1 * 5) ∧
    (download_tif [.reqError, .reqError] none).ok = false :=
  ⟨fun hp => (c7_amended [.reqError, .reqError, .success [1]] [] none none).1
      (1, 5) hp,
    (c7_amended [.reqError, .reqError] [] none none).2.2.2.1 (by decide)⟩

/-! ## Facts about one iteration of the `process_tifs` item loop -/

/-- A URL already in the tracker is skipped with no work and no state
change. -/
theorem processItem_skip (i : Nat) (url : String) (o : ItemOracle)
    (c : Finset String) (fs : Finset PFile) (h : url ∈ c) :
    processItem i url o c fs = ⟨c, fs, [], [], .skipped⟩ := by
  simp [processItem, h]

/-- Every event emitted by one iteration concerns that iteration's URL. -/
theorem processItem_events_url (i : Nat) (url : String) (o : ItemOracle)
    (c : Finset String) (fs : Finset PFile) :
    ∀ e ∈ (processItem i url o c fs).events, e.url = url := by
  by_cases h1 : url ∈ c
  · simp [processItem, h1]
  · by_cases h2 : o.downloadOk = false
    · simp [processItem, h1, h2, Ev.url]
    · by_cases h3 : o.resampleOk = false
      · simp [processItem, h1, h2, h3, Ev.url]
      · by_cases h4 : o.mbtilesOk = false
        · simp [processItem, h1, h2, h3, h4, Ev.url]
        · simp [processItem, h1, h2, h3, h4, Ev.url]

/-- One iteration never removes a URL from the tracker. -/
theorem processItem_completed_mono (i : Nat) (url : String) (o : ItemOracle)
    (c : Finset String) (fs : Finset PFile) :
    c ⊆ (processItem i url o c fs).completed := by
  by_cases h1 : url ∈ c
  · simp [processItem, h1]
  · by_cases h2 : o.downloadOk = false
    · simp [processItem, h1, h2]
    · by_cases h3 : o.resampleOk = false
      · simp [processItem, h1, h2, h3]
      · by_cases h4 : o.mbtilesOk = false
        · simp [processItem, h1, h2, h3, h4]
        · simp [processItem, h1, h2, h3, h4, Finset.subset_insert]

/-- One iteration adds at most its own URL to the tracker. -/
theorem processItem_completed_le (i : Nat) (url : String) (o : ItemOracle)
    (c : Finset String) (fs : Finset PFile) :
    (processItem i url o c fs).completed ⊆ insert url c := by
  by_cases h1 : url ∈ c
  · simp [processItem, h1, Finset.subset_insert]
  · by_cases h2 : o.downloadOk = false
    · simp [processItem, h1, h2, Finset.subset_insert]
    · by_cases h3 : o.resampleOk = false
      · simp [processItem, h1, h2, h3, Finset.subset_insert]
      · by_cases h4 : o.mbtilesOk = false
        · simp [processItem, h1, h2, h3, h4, Finset.subset_insert]
        · simp [processItem, h1, h2, h3, h4]

/-- When the download and both exit-checked stages succeed on a URL not yet
tracked, the iteration marks the URL, records the mark event, and ends
`completed`. -/
theorem processItem_succeeds (i : Nat) (url : String) (o : ItemOracle)
    (c : Finset String) (fs : Finset PFile) (h1 : url ∉ c)
    (hs : o.succeeds = true) :
    (processItem i url o c fs).completed = insert url c ∧
    Ev.marked url ∈ (processItem i url o c fs).events ∧
    (processItem i url o c fs).events.count (.marked url) = 1 ∧
    (processItem i url o c fs).outcome = .completed := by
  have h2 : ¬(o.downloadOk = false) := by
    simp only [ItemOracle.succeeds, Bool.and_eq_true] at hs
    simp [hs.1.1]
  have h3 : ¬(o.resampleOk = false) := by
    simp only [ItemOracle.succeeds, Bool.and_eq_true] at hs
    simp [hs.1.2]
  have h4 : ¬(o.mbtilesOk = false) := by
    simp only [ItemOracle.succeeds, Bool.and_eq_true] at hs
    simp [hs.2]
  refine ⟨by simp [processItem, h1, h2, h3, h4], ?_, ?_, by simp [processItem, h1, h2, h3, h4]⟩
  · simp [processItem, h1, h2, h3, h4]
  · simp [processItem, h1, h2, h3, h4, List.count_cons]

/-- The mark event for a different URL never occurs in one iteration's
events. -/
theorem processItem_count_marked_ne (i : Nat) (url : String) (o : ItemOracle)
    (c : Finset String) (fs : Finset PFile) (u : String) (hne : u ≠ url) :
    (processItem i url o c fs).events.count (.marked u) = 0 := by
  rw [List.count_eq_zero]
  intro hmem
  exact hne (processItem_events_url i url o c fs _ hmem)

/-- An iteration that ends in a failed outcome leaves the tracker unchanged,
started on an untracked URL, and emitted no mark event. -/
theorem processItem_failed (i : Nat) (url : String) (o : ItemOracle)
    (c : Finset String) (fs : Finset PFile)
    (h : (processItem i url o c fs).outcome = .failedDownload ∨
      (processItem i url o c fs).outcome = .failedResample ∨
      (processItem i url o c fs).outcome = .failedMbtiles) :
    (processItem i url o c fs).completed = c ∧ url ∉ c ∧
    Ev.marked url ∉ (processItem i url o c fs).events := by
  by_cases h1 : url ∈ c
  · simp [processItem, h1] at h
  · by_cases h2 : o.downloadOk = false
    · simp [processItem, h1, h2]
    · by_cases h3 : o.resampleOk = false
      · simp [processItem, h1, h2, h3]
      · by_cases h4 : o.mbtilesOk = false
        · simp [processItem, h1, h2, h3, h4]
        · simp [processItem, h1, h2, h3, h4] at h

/-- One iteration touches only staging/output files of its own index: a file
with a different index that was absent stays absent. -/
theorem processItem_fs_fresh (i : Nat) (url : String) (o : ItemOracle)
    (c : Finset String) (fs : Finset PFile) (f : PFile) (hf : f ∉ fs)
    (hidx : f.idx ≠ i) :
    f ∉ (processItem i url o c fs).fs := by
  have hin : f ≠ PFile.input i := fun h => hidx (by rw [h]; rfl)
  have hcor : f ≠ PFile.corrected i := fun h => hidx (by rw [h]; rfl)
  have hres : f ≠ PFile.resampled i := fun h => hidx (by rw [h]; rfl)
  have hmb : f ≠ PFile.mbtiles i := fun h => hidx (by rw [h]; rfl)
  by_cases h1 : url ∈ c
  · simpa [processItem, h1] using hf
  · by_cases h2 : o.downloadOk = false
    · by_cases h6 : o.downloadPartial <;>
        simp [processItem, h1, h2, h6, Finset.mem_insert, hin, hf]
    · by_cases h5 : o.colorFixOk
      · by_cases h3 : o.resampleOk = false
        · simp [processItem, h1, h2, h3, h5, Finset.mem_insert, hin, hcor, hf]
        · by_cases h4 : o.mbtilesOk = false
          · simp [processItem, h1, h2, h3, h4, h5, Finset.mem_insert, hin, hcor,
              hres, hf]
          · simp [processItem, h1, h2, h3, h4, h5, Finset.mem_insert,
              Finset.mem_erase, hin, hcor, hres, hmb, hf]
      · by_cases h3 : o.resampleOk = false
        · simp [processItem, h1, h2, h3, h5, Finset.mem_insert, hin, hf]
        · by_cases h4 : o.mbtilesOk = false
          · simp [processItem, h1, h2, h3, h4, h5, Finset.mem_insert, hin, hres, hf]
          · simp [processItem, h1, h2, h3, h4, h5, Finset.mem_insert,
              Finset.mem_erase, hin, hres, hmb, hf]

/-- One iteration never removes a final output artifact that exists. -/
theorem processItem_fs_output_pres (i : Nat) (url : String) (o : ItemOracle)
    (c : Finset String) (fs : Finset PFile) (f : PFile)
    (hout : f.isOutput = true) (hf : f ∈ fs) :
    f ∈ (processItem i url o c fs).fs := by
  cases f with
  | input j => simp [PFile.isOutput] at hout
  | corrected j => simp [PFile.isOutput] at hout
  | resampled j => simp [PFile.isOutput] at hout
  | mbtiles j =>
    by_cases h1 : url ∈ c
    · simpa [processItem, h1] using hf
    · by_cases h2 : o.downloadOk = false
      · by_cases h6 : o.downloadPartial <;>
          simp [processItem, h1, h2, h6, Finset.mem_insert, hf]
      · by_cases h5 : o.colorFixOk <;>
          by_cases h3 : o.resampleOk = false <;>
          by_cases h4 : o.mbtilesOk = false <;>
          simp [processItem, h1, h2, h3, h4, h5, Finset.mem_insert,
            Finset.mem_erase, hf]

/-- An iteration that ends `completed` leaves none of its three staging
files and leaves its final output artifact in place. -/
theorem processItem_completed_fs (i : Nat) (url : String) (o : ItemOracle)
    (c : Finset String) (fs : Finset PFile)
    (h : (processItem i url o c fs).outcome = .completed) :
    PFile.input i ∉ (processItem i url o c fs).fs ∧
    PFile.corrected i ∉ (processItem i url o c fs).fs ∧
    PFile.resampled i ∉ (processItem i url o c fs).fs ∧
    PFile.mbtiles i ∈ (processItem i url o c fs).fs := by
  by_cases h1 : url ∈ c
  · simp [processItem, h1] at h
  · by_cases h2 : o.downloadOk = false
    · simp [processItem, h1, h2] at h
    · by_cases h3 : o.resampleOk = false
      · simp [processItem, h1, h2, h3] at h
      · by_cases h4 : o.mbtilesOk = false
        · simp [processItem, h1, h2, h3, h4] at h
        · by_cases h5 : o.colorFixOk <;>
            simp [processItem, h1, h2, h3, h4, h5, Finset.mem_insert,
              Finset.mem_erase]

/-- Every file an iteration removes is a staging file, never the final
output artifact. -/
theorem processItem_removals_staging (i : Nat) (url : String) (o : ItemOracle)
    (c : Finset String) (fs : Finset PFile) :
    ∀ f ∈ (processItem i url o c fs).removals, f.isOutput = false := by
  by_cases h1 : url ∈ c
  · simp [processItem, h1]
  · by_cases h2 : o.downloadOk = false
    · simp [processItem, h1, h2]
    · by_cases h3 : o.resampleOk = false
      · simp [processItem, h1, h2, h3]
      · by_cases h4 : o.mbtilesOk = false
        · simp [processItem, h1, h2, h3, h4]
        · intro f hfmem
          cases f with
          | input j => rfl
          | corrected j => rfl
          | resampled j => rfl
          | mbtiles j =>
            exfalso
            refine absurd hfmem ?_
            simp [processItem, h1, h2, h3, h4, List.mem_filter]

/-! ## Facts about the whole `process_tifs` run -/

/-- Every item gets exactly one outcome: the run visits the full URL list no
matter which downloads or stages fail. -/
theorem processTifsGo_length (oracle : String → ItemOracle) (us : List String) :
    ∀ (i : Nat) (c : Finset String) (fs : Finset PFile),
      (processTifsGo oracle us i c fs).outcomes.length = us.length := by
  induction us with
  | nil => intro i c fs; rfl
  | cons url rest ih =>
    intro i c fs
    simp only [processTifsGo, List.length_cons]
    rw [ih]

/-- The tracker set only grows during a run. -/
theorem processTifsGo_completed_mono (oracle : String → ItemOracle)
    (us : List String) :
    ∀ (i : Nat) (c : Finset String) (fs : Finset PFile),
      c ⊆ (processTifsGo oracle us i c fs).completed := by
  induction us with
  | nil => intro i c fs x hx; exact hx
  | cons url rest ih =>
    intro i c fs x hx
    exact ih (i + 1) _ _ (processItem_completed_mono i url (oracle url) c fs hx)

/-- Every event of a run concerns one of the run's URLs. -/
theorem processTifsGo_events_urls (oracle : String → ItemOracle)
    (us : List String) :
    ∀ (i : Nat) (c : Finset String) (fs : Finset PFile),
      ∀ e ∈ (processTifsGo oracle us i c fs).events, e.url ∈ us := by
  induction us with
  | nil => intro i c fs e he; simp [processTifsGo] at he
  | cons url rest ih =>
    intro i c fs e he
    simp only [processTifsGo, List.mem_append] at he
    rcases he with h | h
    · rw [processItem_events_url i url (oracle url) c fs e h]
      exact List.mem_cons_self _ _
    · exact List.mem_cons_of_mem _ (ih (i + 1) _ _ e h)

/-- No event of a run concerns a URL that is already in the tracker when the
run reaches it: completed items are skipped with no download, no stage run,
and no new mark. -/
theorem processTifsGo_no_events_of_completed (oracle : String → ItemOracle)
    (u : String) (us : List String) :
    ∀ (i : Nat) (c : Finset String) (fs : Finset PFile), u ∈ c →
      ∀ e ∈ (processTifsGo oracle us i c fs).events, e.url ≠ u := by
  induction us with
  | nil => intro i c fs hu e he; simp [processTifsGo] at he
  | cons url rest ih =>
    intro i c fs hu e he
    simp only [processTifsGo, List.mem_append] at he
    rcases he with h | h
    · by_cases hc : url ∈ c
      · rw [processItem_skip i url (oracle url) c fs hc] at h
        simp at h
      · rw [processItem_events_url i url (oracle url) c fs e h]
        exact fun heq => hc (heq ▸ hu)
    · exact ih (i + 1) _ _ (processItem_completed_mono i url (oracle url) c fs hu) e h

/-- A run over URLs that are all already tracked performs nothing at all:
no download, no stage, no mark. -/
theorem processTifsGo_events_nil (oracle : String → ItemOracle)
    (us : List String) (i : Nat) (c : Finset String) (fs : Finset PFile)
    (h : ∀ u ∈ us, u ∈ c) :
    (processTifsGo oracle us i c fs).events = [] := by
  rw [List.eq_nil_iff_forall_not_mem]
  intro e he
  have hu := processTifsGo_events_urls oracle us i c fs e he
  exact processTifsGo_no_events_of_completed oracle e.url us i c fs (h _ hu) e he rfl

/-- The final tracker set contains only the initial set and the run's own
URLs. -/
theorem processTifsGo_completed_le (oracle : String → ItemOracle)
    (us : List String) :
    ∀ (i : Nat) (c : Finset String) (fs : Finset PFile),
      (processTifsGo oracle us i c fs).completed ⊆ c ∪ us.toFinset := by
  induction us with
  | nil => intro i c fs; simp [processTifsGo]
  | cons url rest ih =>
    intro i c fs x hx
    have hx' := ih (i + 1) _ _ hx
    rcases Finset.mem_union.mp hx' with h | h
    · have hx'' := processItem_completed_le i url (oracle url) c fs h
      rcases Finset.mem_insert.mp hx'' with rfl | hc
      · simp [List.toFinset_cons]
      · exact Finset.mem_union_left _ hc
    · refine Finset.mem_union_right _ ?_
      simp only [List.toFinset_cons, Finset.mem_insert]
      exact Or.inr h

/-- When every URL's download and checked stages succeed, every URL of the
run ends up in the tracker. -/
theorem processTifsGo_succeeds_mem (oracle : String → ItemOracle) :
    ∀ (us : List String), (∀ u ∈ us, (oracle u).succeeds = true) →
      ∀ (i : Nat) (c : Finset String) (fs : Finset PFile),
        ∀ u ∈ us, u ∈ (processTifsGo oracle us i c fs).completed := by
  intro us
  induction us with
  | nil => intro _ i c fs u hu; simp at hu
  | cons url rest ih =>
    intro hok i c fs u hu
    rcases List.mem_cons.mp hu with rfl | hmem
    · by_cases hc : u ∈ c
      · refine processTifsGo_completed_mono oracle rest (i + 1) _ _ ?_
        rw [processItem_skip i u (oracle u) c fs hc]
        exact hc
      · refine processTifsGo_completed_mono oracle rest (i + 1) _ _ ?_
        rw [(processItem_succeeds i u (oracle u) c fs hc
          (hok u (List.mem_cons_self _ _))).1]
        exact Finset.mem_insert_self _ _
    · exact ih (fun v hv => hok v (List.mem_cons_of_mem _ hv)) (i + 1) _ _ u hmem

/-- With a successful oracle and distinct URLs, a run starting with `u`
untracked marks `u` complete exactly once. -/
theorem processTifsGo_count_marked (oracle : String → ItemOracle) :
    ∀ (us : List String), us.Nodup → (∀ v ∈ us, (oracle v).succeeds = true) →
      ∀ (i : Nat) (c : Finset String) (fs : Finset PFile),
        ∀ u ∈ us, u ∉ c →
          (processTifsGo oracle us i c fs).events.count (.marked u) = 1 := by
  intro us
  induction us with
  | nil => intro _ _ i c fs u hu; simp at hu
  | cons url rest ih =>
    intro hnd hok i c fs u hu huc
    have hnd' : rest.Nodup := (List.nodup_cons.mp hnd).2
    have hnr : url ∉ rest := (List.nodup_cons.mp hnd).1
    simp only [processTifsGo, List.count_append]
    rcases List.mem_cons.mp hu with rfl | hmem
    · have hsucc := processItem_succeeds i u (oracle u) c fs huc
        (hok u (List.mem_cons_self _ _))
      rw [hsucc.2.2.1]
      have hrest : ((processTifsGo oracle rest (i + 1)
          (processItem i u (oracle u) c fs).completed
          (processItem i u (oracle u) c fs).fs).events).count (.marked u) = 0 := by
        rw [List.count_eq_zero]
        intro hmem'
        refine processTifsGo_no_events_of_completed oracle u rest (i + 1) _ _
          ?_ _ hmem' rfl
        rw [hsucc.1]
        exact Finset.mem_insert_self _ _
      omega
    · have hne : u ≠ url := fun h => hnr (h ▸ hmem)
      rw [processItem_count_marked_ne i url (oracle url) c fs u hne]
      have huc' : u ∉ (processItem i url (oracle url) c fs).completed := by
        intro hin
        rcases Finset.mem_insert.mp
          (processItem_completed_le i url (oracle url) c fs hin) with h | h
        · exact hne h
        · exact huc h
      rw [ih hnd' (fun v hv => hok v (List.mem_cons_of_mem _ hv)) (i + 1) _ _ u hmem huc']

/-- In a run over distinct URLs, an item that ends in a failed outcome is
never marked and its URL is not in the final tracker set. -/
theorem processTifsGo_failed (oracle : String → ItemOracle) :
    ∀ (us : List String), us.Nodup →
      ∀ (i : Nat) (c : Finset String) (fs : Finset PFile),
        ∀ p ∈ us.zip (processTifsGo oracle us i c fs).outcomes,
          (p.2 = .failedDownload ∨ p.2 = .failedResample ∨ p.2 = .failedMbtiles) →
          Ev.marked p.1 ∉ (processTifsGo oracle us i c fs).events ∧
          p.1 ∉ (processTifsGo oracle us i c fs).completed := by
  intro us
  induction us with
  | nil => intro _ i c fs p hp; simp [processTifsGo] at hp
  | cons url rest ih =>
    intro hnd i c fs p hp hfail
    have hnr : url ∉ rest := (List.nodup_cons.mp hnd).1
    simp only [processTifsGo, List.zip_cons_cons] at hp ⊢
    rcases List.mem_cons.mp hp with rfl | hmem
    · obtain ⟨hcomp, hurlc, hmark⟩ := processItem_failed i url (oracle url) c fs hfail
      constructor
      · simp only [List.mem_append]
        rintro (h | h)
        · exact hmark h
        · have hu := processTifsGo_events_urls oracle rest (i + 1) _ _ _ h
          exact hnr (by simpa [Ev.url] using hu)
      · intro hin
        rcases Finset.mem_union.mp
          (processTifsGo_completed_le oracle rest (i + 1) _ _ hin) with h | h
        · rw [hcomp] at h
          exact hurlc h
        · exact hnr (List.mem_toFinset.mp h)
    · have hres := ih (List.nodup_cons.mp hnd).2 (i + 1) _ _ p hmem hfail
      have hp1 : p.1 ∈ rest := (List.of_mem_zip hmem).1
      constructor
      · simp only [List.mem_append]
        rintro (h | h)
        · have hpurl := processItem_events_url i url (oracle url) c fs _ h
          have : p.1 = url := by simpa [Ev.url] using hpurl
          exact hnr (this ▸ hp1)
        · exact hres.1 h
      · exact hres.2

/-- A staging/output file of an index below the run's starting index that is
absent stays absent for the whole run. -/
theorem processTifsGo_fs_fresh (oracle : String → ItemOracle) :
    ∀ (us : List String) (i : Nat) (c : Finset String) (fs : Finset PFile)
      (f : PFile), f ∉ fs → f.idx < i →
      f ∉ (processTifsGo oracle us i c fs).fs := by
  intro us
  induction us with
  | nil => intro i c fs f hf _; exact hf
  | cons url rest ih =>
    intro i c fs f hf hidx
    refine ih (i + 1) _ _ f ?_ (by omega)
    exact processItem_fs_fresh i url (oracle url) c fs f hf (by omega)

/-- A final output artifact present in the file system is never removed by
the rest of the run. -/
theorem processTifsGo_fs_output (oracle : String → ItemOracle) :
    ∀ (us : List String) (i : Nat) (c : Finset String) (fs : Finset PFile)
      (f : PFile), f.isOutput = true → f ∈ fs →
      f ∈ (processTifsGo oracle us i c fs).fs := by
  intro us
  induction us with
  | nil => intro i c fs f _ hf; exact hf
  | cons url rest ih =>
    intro i c fs f hout hf
    exact ih (i + 1) _ _ f hout
      (processItem_fs_output_pres i url (oracle url) c fs f hout hf)

/-- Every file removed during a run is a staging file, never a final output
artifact. -/
theorem processTifsGo_removals (oracle : String → ItemOracle) :
    ∀ (us : List String) (i : Nat) (c : Finset String) (fs : Finset PFile),
      ∀ f ∈ (processTifsGo oracle us i c fs).removals, f.isOutput = false := by
  intro us
  induction us with
  | nil => intro i c fs f hf; simp [processTifsGo] at hf
  | cons url rest ih =>
    intro i c fs f hf
    simp only [processTifsGo, List.mem_append] at hf
    rcases hf with h | h
    · exact processItem_removals_staging i url (oracle url) c fs f h
    · exact ih (i + 1) _ _ f h

/-- For every item whose chain ends `completed`, its three staging files are
absent at the end of the run and its final output artifact is present. -/
theorem processTifsGo_completed_cleanup (oracle : String → ItemOracle) :
    ∀ (us : List String) (i : Nat) (c : Finset String) (fs : Finset PFile)
      (k : Nat) (hk : k < (processTifsGo oracle us i c fs).outcomes.length),
      (processTifsGo oracle us i c fs).outcomes.get ⟨k, hk⟩ = .completed →
      PFile.input (i + k) ∉ (processTifsGo oracle us i c fs).fs ∧
      PFile.corrected (i + k) ∉ (processTifsGo oracle us i c fs).fs ∧
      PFile.resampled (i + k) ∉ (processTifsGo oracle us i c fs).fs ∧
      PFile.mbtiles (i + k) ∈ (processTifsGo oracle us i c fs).fs := by
  intro us
  induction us with
  | nil =>
    intro i c fs k hk
    simp [processTifsGo] at hk
  | cons url rest ih =>
    intro i c fs k hk hout
    cases k with
    | zero =>
      have hstep : (processItem i url (oracle url) c fs).outcome = .completed :=
        hout
      obtain ⟨hi, hc, hr, hm⟩ :=
        processItem_completed_fs i url (oracle url) c fs hstep
      refine ⟨?_, ?_, ?_, ?_⟩
      · exact processTifsGo_fs_fresh oracle rest (i + 1) _ _ _ hi (by simp [PFile.idx])
      · exact processTifsGo_fs_fresh oracle rest (i + 1) _ _ _ hc (by simp [PFile.idx])
      · exact processTifsGo_fs_fresh oracle rest (i + 1) _ _ _ hr (by simp [PFile.idx])
      · exact processTifsGo_fs_output oracle rest (i + 1) _ _ _ rfl hm
    | succ k' =>
      have hk' : k' < (processTifsGo oracle rest (i + 1)
          (processItem i url (oracle url) c fs).completed
          (processItem i url (oracle url) c fs).fs).outcomes.length := by
        have := processTifsGo_length oracle rest (i + 1)
          (processItem i url (oracle url) c fs).completed
          (processItem i url (oracle url) c fs).fs
        have hlen := processTifsGo_length oracle (url :: rest) i c fs
        simp only [List.length_cons] at hlen
        omega
      have hout' : (processTifsGo oracle rest (i + 1)
          (processItem i url (oracle url) c fs).completed
          (processItem i url (oracle url) c fs).fs).outcomes.get ⟨k', hk'⟩
          = .completed := hout
      have hres := ih (i + 1) _ _ k' hk' hout'
      have harith : i + 1 + k' = i + (k' + 1) := by omega
      rw [harith] at hres
      exact hres

/-! ## C2: skipping completed items and idempotent resumption -/

/-- C2: items whose URL is in the tracker at the start are skipped with no
download, no stage and no mark; with a fully successful oracle and distinct
URLs, a first run from an empty tracker marks each item complete exactly
once, and a second run over the same list performs no work at all (zero
downloads, zero transforms, zero marks). -/
theorem c2_skip_idempotent (urls : List String) (oracle : String → ItemOracle)
    (c0 : Finset String) (hnd : urls.Nodup)
    (hok : ∀ u ∈ urls, (oracle u).succeeds = true) :
    (∀ u ∈ c0, ∀ e ∈ (process_tifs urls oracle c0).events,
      e ≠ .download u ∧ (∀ s b, e ≠ .stage u s b) ∧ e ≠ .marked u) ∧
    (∀ u ∈ urls, (process_tifs urls oracle ∅).events.count (.marked u) = 1) ∧
    (process_tifs urls oracle (process_tifs urls oracle ∅).completed).events = [] := by
  refine ⟨?_, ?_, ?_⟩
  · intro u hu e he
    have hne := processTifsGo_no_events_of_completed oracle u urls 1 c0 ∅ hu e he
    exact ⟨fun h => hne (by rw [h]; rfl), fun s b h => hne (by rw [h]; rfl),
      fun h => hne (by rw [h]; rfl)⟩
  · intro u hu
    exact processTifsGo_count_marked oracle urls hnd hok 1 ∅ ∅ u hu
      (Finset.not_mem_empty u)
  · refine processTifsGo_events_nil oracle urls 1 _ ∅ ?_
    intro u hu
    exact processTifsGo_succeeds_mem oracle urls hok 1 ∅ ∅ u hu

/-- C2 witness: two items with an all-success oracle — the first run marks
item a once, and a second run over the final tracker performs no events. -/
theorem c2_skip_idempotent_witness :
    (process_tifs ["a", "b"] oracleAllOk ∅).events.count (.marked "a") = 1 ∧
    (process_tifs ["a", "b"] oracleAllOk
      (process_tifs ["a", "b"] oracleAllOk ∅).completed).events = [] :=
  ⟨(c2_skip_idempotent ["a", "b"] oracleAllOk ∅ (by decide) (by decide)).2.1
      "a" (by decide),
    (c2_skip_idempotent ["a", "b"] oracleAllOk ∅ (by decide) (by decide)).2.2⟩

/-! ## C4: fail-fast versus best-effort stages -/

/-- C4 counterexample: the color-fix `gdal_translate` is not best-effort
(it produces the corrected RGB raster the rest of the chain consumes), yet
`process_tifs` never inspects its exit status (line 244): with the color-fix
stage failing and everything else succeeding, the remaining stages all run
and the item ends COMPLETE and marked — not FAILED and unmarked as the
claim requires for the first failing non-best-effort stage. -/
theorem c4_counterexample :
    Ev.stage "u1" .colorFix false ∈ (process_tifs ["u1"] oracleColorFixFails ∅).events ∧
    Ev.stage "u1" .resample true ∈ (process_tifs ["u1"] oracleColorFixFails ∅).events ∧
    Ev.stage "u1" .mbtilesT true ∈ (process_tifs ["u1"] oracleColorFixFails ∅).events ∧
    Ev.marked "u1" ∈ (process_tifs ["u1"] oracleColorFixFails ∅).events ∧
    (process_tifs ["u1"] oracleColorFixFails ∅).outcomes = [.completed] ∧
    "u1" ∈ (process_tifs ["u1"] oracleColorFixFails ∅).completed := by
  decide

/-- C4 amended: among the exit-checked stages the chain is fail-fast — a
failing `gdalwarp` resample aborts the remaining stages and leaves the item
failed and unmarked, as does a failing MBTiles translation — and the
overview-generation stage (`gdaladdo`) is best-effort: its failure is logged
and the chain still ends COMPLETE and marked.  The color-fix stage's exit
status, however, is not checked at all (see the counterexample). -/
theorem c4_amended (i : Nat) (url : String) (o : ItemOracle) (c : Finset String)
    (fs : Finset PFile) (hc : url ∉ c) (hd : o.downloadOk = true) :
    (o.resampleOk = false →
      (processItem i url o c fs).outcome = .failedResample ∧
      (∀ b, Ev.stage url .mbtilesT b ∉ (processItem i url o c fs).events) ∧
      (∀ b, Ev.stage url .addo b ∉ (processItem i url o c fs).events) ∧
      Ev.marked url ∉ (processItem i url o c fs).events ∧
      url ∉ (processItem i url o c fs).completed) ∧
    (o.resampleOk = true → o.mbtilesOk = false →
      (processItem i url o c fs).outcome = .failedMbtiles ∧
      (∀ b, Ev.stage url .addo b ∉ (processItem i url o c fs).events) ∧
      Ev.marked url ∉ (processItem i url o c fs).events ∧
      url ∉ (processItem i url o c fs).completed) ∧
    (o.resampleOk = true → o.mbtilesOk = true →
      (processItem i url o c fs).outcome = .completed ∧
      Ev.stage url .addo o.addoOk ∈ (processItem i url o c fs).events ∧
      Ev.marked url ∈ (processItem i url o c fs).events ∧
      url ∈ (processItem i url o c fs).completed) := by
  have h2 : ¬(o.downloadOk = false) := by simp [hd]
  refine ⟨?_, ?_, ?_⟩
  · intro h3
    simp [processItem, hc, h2, h3]
  · intro h3 h4
    have h3' : ¬(o.resampleOk = false) := by simp [h3]
    simp [processItem, hc, h2, h3', h4]
  · intro h3 h4
    have h3' : ¬(o.resampleOk = false) := by simp [h3]
    have h4' : ¬(o.mbtilesOk = false) := by simp [h4]
    simp [processItem, hc, h2, h3', h4']

/-- C4 witness: a failing resample leaves the item failed; a failing
`gdaladdo` alone still completes the item. -/
theorem c4_amended_witness :
    (processItem 1 "u" (oracleResampleFails "u") ∅ ∅).outcome = .failedResample ∧
    (processItem 1 "u" ⟨true, false, true, true, true, true, false, true, true⟩
      ∅ ∅).outcome = .completed :=
  ⟨((c4_amended 1 "u" (oracleResampleFails "u") ∅ ∅ (by decide) (by decide)).1
      (by decide)).1,
    ((c4_amended 1 "u" ⟨true, false, true, true, true, true, false, true, true⟩
      ∅ ∅ (by decide) (by decide)).2.2 (by decide) (by decide)).1⟩

/-! ## C6: per-item failure isolation -/

/-- C6: under every pattern of download and stage failures, the run visits
every item exactly once — one outcome per URL, so no item's failure aborts
the loop or raises out of it — and, for distinct URLs, an item that ends in
a failed outcome is converted into that per-item failed state: it is never
marked complete and is absent from the final tracker set. -/
theorem c6_isolation (urls : List String) (oracle : String → ItemOracle)
    (c0 : Finset String) (hnd : urls.Nodup) :
    (process_tifs urls oracle c0).outcomes.length = urls.length ∧
    ∀ p ∈ urls.zip (process_tifs urls oracle c0).outcomes,
      (p.2 = .failedDownload ∨ p.2 = .failedResample ∨ p.2 = .failedMbtiles) →
      Ev.marked p.1 ∉ (process_tifs urls oracle c0).events ∧
      p.1 ∉ (process_tifs urls oracle c0).completed :=
  ⟨processTifsGo_length oracle urls 1 c0 ∅,
    fun p hp hfail => processTifsGo_failed oracle urls hnd 1 c0 ∅ p hp hfail⟩

/-- C6 witness: a failing download on item a yields one failed outcome, no
mark, and an untouched tracker, at a concrete input. -/
theorem c6_isolation_witness :
    (process_tifs ["a"] oracleDownloadFails ∅).outcomes.length = 1 ∧
    Ev.marked "a" ∉ (process_tifs ["a"] oracleDownloadFails ∅).events ∧
    "a" ∉ (process_tifs ["a"] oracleDownloadFails ∅).completed := by
  have h := c6_isolation ["a"] oracleDownloadFails ∅ (by decide)
  have h2 := h.2 ("a", Outcome.failedDownload) (by decide) (by decide)
  exact ⟨h.1, h2.1, h2.2⟩

/-! ## C8: staging cleanup and preservation of the output artifact -/

/-- C8 counterexample: when `gdalwarp` fails, `process_tifs` hits the
`continue` on line 272 without any cleanup: the item's chain finishes FAILED
while the downloaded `input_1.tif` and the intermediate `corrected_1.tif`
are still on disk — intermediate staging files are NOT removed on the
failure paths. -/
theorem c8_counterexample :
    (process_tifs ["u1"] oracleResampleFails ∅).outcomes = [.failedResample] ∧
    PFile.input 1 ∈ (process_tifs ["u1"] oracleResampleFails ∅).fs ∧
    PFile.corrected 1 ∈ (process_tifs ["u1"] oracleResampleFails ∅).fs := by
  decide

/-- C8 amended: for every item whose chain ends COMPLETE the three
intermediate staging files are removed and the final MBTiles artifact is
present at the end of the run; and no removal a run ever performs touches a
final output artifact.  (Items that end FAILED can leave staging files
behind — see the counterexample.) -/
theorem c8_amended (urls : List String) (oracle : String → ItemOracle)
    (c0 : Finset String) :
    (∀ (k : Nat) (hk : k < (process_tifs urls oracle c0).outcomes.length),
      (process_tifs urls oracle c0).outcomes.get ⟨k, hk⟩ = .completed →
      PFile.input (k + 1) ∉ (process_tifs urls oracle c0).fs ∧
      PFile.corrected (k + 1) ∉ (process_tifs urls oracle c0).fs ∧
      PFile.resampled (k + 1) ∉ (process_tifs urls oracle c0).fs ∧
      PFile.mbtiles (k + 1) ∈ (process_tifs urls oracle c0).fs) ∧
    (∀ f ∈ (process_tifs urls oracle c0).removals, f.isOutput = false) := by
  constructor
  · intro k hk hout
    have h := processTifsGo_completed_cleanup oracle urls 1 c0 ∅ k hk hout
    have harith : 1 + k = k + 1 := by omega
    rw [harith] at h
    exact h
  · exact processTifsGo_removals oracle urls 1 c0 ∅

/-- C8 witness: a fully successful single-item run leaves no staging file
and keeps the output artifact; its removals contain no output artifact. -/
theorem c8_amended_witness :
    (PFile.input 1 ∉ (process_tifs ["a"] oracleAllOk ∅).fs ∧
      PFile.corrected 1 ∉ (process_tifs ["a"] oracleAllOk ∅).fs ∧
      PFile.resampled 1 ∉ (process_tifs ["a"] oracleAllOk ∅).fs ∧
      PFile.mbtiles 1 ∈ (process_tifs ["a"] oracleAllOk ∅).fs) ∧
    PFile.isOutput (PFile.input 1) = false :=
  ⟨(c8_amended ["a"] oracleAllOk ∅).1 0 (by decide) (by decide),
    (c8_amended ["a"] oracleAllOk ∅).2 (PFile.input 1) (by decide)⟩

end Basemap
